import Mathlib

/-!
Shallow embedding of `OneWayTradingAlgorithm`
(src/learning_augmented_online_algorithms/algorithms/one_way_trading.py)
over exact rational arithmetic.

The engine's collaborators that live outside the embedded file are kept
abstract, exactly as the specification treats them:
* the threshold function `OWTThresholdFunction L U lmbda` is consumed only
  through its call interface `threshold w prediction`; its concrete formula
  is out of scope, so the engine is parameterised by an arbitrary
  `Threshold` function;
* `scipy.optimize.fsolve` is an external numeric root finder; it is
  modelled as an arbitrary `Solver` that receives the residual function
  `fun x => threshold (w + x) prediction - price` and returns a candidate
  root.  All clamping of the returned candidate is embedded faithfully,
  so the theorems below hold for every solver outcome.
-/

namespace OneWayTrading

/-- A prediction oracle: `predict(history)` is a pure function of the
history of previously seen instances (`abstract_predictory.py` interface). -/
abbrev Predictor : Type := List (List ℚ) → ℚ

/-- A threshold function `threshold(w, prediction)`, as the engine calls it:
current cumulative allocation and an optional prediction, returning a
reservation price. -/
abbrev Threshold : Type := ℚ → Option ℚ → ℚ

/-- A numeric root solver, standing for `fsolve(func, [0.5])[0]`: it is given
the residual function and returns a candidate root. -/
abbrev Solver : Type := (ℚ → ℚ) → ℚ

/-- The mutable state and configuration of a `OneWayTradingAlgorithm`
object: `self.threshold`, `self.predictor`, `self.seen_instances`, `self.w`. -/
structure Engine where
  threshold : Threshold
  predictor : Option Predictor
  seenInstances : List (List ℚ)
  w : ℚ

/-- `OneWayTradingAlgorithm.__init__(L, U, lmbda, seen_instances, predictor)`:
raises `ValueError` when no predictor is supplied and `lmbda < 1.0`,
otherwise builds the engine with `threshold = OWTThresholdFunction(L, U, lmbda)`
and `w = 0.0`.  `thrFam` abstracts the out-of-scope `OWTThresholdFunction`
constructor. -/
def OneWayTradingAlgorithm.init (thrFam : ℚ → ℚ → ℚ → Threshold)
    (L U lmbda : ℚ) (seen_instances : List (List ℚ))
    (predictor : Option Predictor) : Except String Engine :=
  if predictor.isNone ∧ lmbda < 1 then
    Except.error "if no predictor, can only use lmbda == 1.0"
  else
    Except.ok { threshold := thrFam L U lmbda, predictor := predictor,
                seenInstances := seen_instances, w := 0 }

/-- The prediction obtained at one loop iteration:
`predictor.predict(self.seen_instances)` when a predictor is configured,
`None` otherwise (lines 39–43 of the source). -/
def stepPrediction (e : Engine) : Option ℚ :=
  e.predictor.map (fun predict => predict e.seenInstances)

/-- The two sequential clamps applied to the solver's candidate root
(lines 53–59 of the source): `if xn < 0: xn = 0` then
`if xn > 1 - self.w: xn = 1 - self.w`. -/
def clampStep (w xn : ℚ) : ℚ :=
  let xn1 := if xn < 0 then 0 else xn
  if 1 - w < xn1 then 1 - w else xn1

/-- One per-step allocation decision `xn` (lines 44–61 of the source):
three-way branch on the price against `threshold(w, prediction)` and
`threshold(1, prediction)`, with the middle branch delegating to the
solver and clamping its result. -/
def stepAlloc (solver : Solver) (e : Engine) (p : ℚ) : ℚ :=
  let prediction := stepPrediction e
  let reservation_price := e.threshold e.w prediction
  if p < reservation_price then 0
  else if reservation_price ≤ p ∧ p < e.threshold 1 prediction then
    clampStep e.w (solver (fun x => e.threshold (e.w + x) prediction - p))
  else 1 - e.w

/-- One loop iteration: compute `xn` and perform `self.w += xn`
(lines 63–64 of the source).  Returns the recorded allocation together
with the updated engine. -/
def stepUpdate (solver : Solver) (e : Engine) (p : ℚ) : ℚ × Engine :=
  let xn := stepAlloc solver e p
  (xn, { e with w := e.w + xn })

/-- The decision loop (lines 38–67 of the source): iterate over the prices,
record each `xn`, update `w`, and break once `w ≥ 1`, leaving the
remaining entries of the zero-initialised allocation array at `0`.
Returns the allocation entries, the prediction queried at each executed
iteration (line 40), and the engine after the loop. -/
def allocLoop (solver : Solver) (e : Engine) :
    List ℚ → List ℚ × List (Option ℚ) × Engine
  | [] => ([], [], e)
  | p :: ps =>
    let s := stepUpdate solver e p
    if 1 ≤ s.2.w then
      (s.1 :: ps.map (fun _ => 0), [stepPrediction e], s.2)
    else
      let r := allocLoop solver s.2 ps
      (s.1 :: r.1, stepPrediction e :: r.2.1, r.2.2)

/-- `allocation[-1] += v`: add `v` to the last entry of the array. -/
def addLast : List ℚ → ℚ → List ℚ
  | [], _ => []
  | [a], v => [a + v]
  | a :: b :: t, v => a :: addLast (b :: t) v

/-- `np.sum(instance * allocation)`: elementwise product, summed. -/
def dotSum : List ℚ → List ℚ → ℚ
  | p :: ps, a :: t => p * a + dotSum ps t
  | _, _ => 0

/-- The result dictionary built at lines 73–75 of the source. -/
structure AllocResult where
  allocation : List ℚ
  profit : ℚ
  deriving DecidableEq

/-- `OneWayTradingAlgorithm.allocate(instance)` (lines 24–77 of the source):
run the decision loop, then the episode close
`if self.w <= 1: allocation[-1] += 1 - self.w` — which raises an
`IndexError` when the allocation array is empty — and build the result.
Returns the result together with the engine as it is left after the call. -/
def OneWayTradingAlgorithm.allocate (solver : Solver) (e : Engine)
    (inst : List ℚ) : Except String (AllocResult × Engine) :=
  let r := allocLoop solver e inst
  if r.2.2.w ≤ 1 then
    match r.1 with
    | [] => Except.error "IndexError: index -1 is out of bounds for axis 0 with size 0"
    | _ :: _ =>
      let alloc2 := addLast r.1 (1 - r.2.2.w)
      Except.ok ({ allocation := alloc2, profit := dotSum inst alloc2 }, r.2.2)
  else
    Except.ok ({ allocation := r.1, profit := dotSum inst r.1 }, r.2.2)

end OneWayTrading

namespace OneWayTrading

/-!
Concrete collaborator instances, used to evaluate the development on
closed inputs.  `thrStep` is one admissible threshold function (it meets
the behavioural contract of §4.1 of the specification for `L = 1`,
`U = 3`); the engine never inspects the formula, so any instance serves. -/

/-- A concrete threshold function instance: reservation price `1` below
full allocation, `3` at full allocation. -/
def thrStep : Threshold := fun w _ => if w < 1 then 1 else 3

/-- A fresh engine over `thrStep` with no predictor and `w = 0`. -/
def eng0 : Engine :=
  { threshold := thrStep, predictor := none, seenInstances := [], w := 0 }

/-- An engine over `thrStep` with a constant predictor and one past episode. -/
def engP : Engine :=
  { threshold := thrStep, predictor := some (fun _ => 7),
    seenInstances := [[1]], w := 0 }

/-- An engine over `thrStep` whose `w` already holds the terminal value `1`
of a completed episode. -/
def engT : Engine :=
  { threshold := thrStep, predictor := none, seenInstances := [], w := 1 }

/-- A concrete solver instance returning the constant `0`. -/
def solv0 : Solver := fun _ => 0

/-! Basic lemmas about the clamps, the step, and the loop. -/

theorem clampStep_eq (w xn : ℚ) : clampStep w xn = min (max xn 0) (1 - w) := by
  simp only [clampStep, max_def, min_def]
  split_ifs <;> linarith

theorem clampStep_nonneg {w : ℚ} (hw : w ≤ 1) (xn : ℚ) : 0 ≤ clampStep w xn := by
  rw [clampStep_eq]
  exact le_min (le_max_right _ _) (by linarith)

theorem clampStep_le (w xn : ℚ) : clampStep w xn ≤ 1 - w := by
  rw [clampStep_eq]
  exact min_le_right _ _

theorem stepAlloc_nonneg (solver : Solver) {e : Engine} (hw : e.w ≤ 1) (p : ℚ) :
    0 ≤ stepAlloc solver e p := by
  simp only [stepAlloc]
  split_ifs
  · exact le_refl 0
  · exact clampStep_nonneg hw _
  · linarith

theorem stepAlloc_add_le (solver : Solver) {e : Engine} (hw : e.w ≤ 1) (p : ℚ) :
    e.w + stepAlloc solver e p ≤ 1 := by
  simp only [stepAlloc]
  split_ifs
  · linarith
  · have := clampStep_le e.w (solver (fun x =>
      e.threshold (e.w + x) (stepPrediction e) - p))
    linarith
  · linarith

theorem stepPrediction_update (solver : Solver) (e : Engine) (p : ℚ) :
    stepPrediction (stepUpdate solver e p).2 = stepPrediction e := rfl

theorem sum_map_zero (ps : List ℚ) : (ps.map (fun _ => (0 : ℚ))).sum = 0 := by
  induction ps with
  | nil => rfl
  | cons a t ih => simp [ih]

theorem allocLoop_length (solver : Solver) (l : List ℚ) :
    ∀ e : Engine, (allocLoop solver e l).1.length = l.length := by
  induction l with
  | nil => intro e; rfl
  | cons p ps ih =>
    intro e
    simp only [allocLoop]
    split
    · simp
    · simp [ih]

theorem allocLoop_frame (solver : Solver) (l : List ℚ) :
    ∀ e : Engine,
      (allocLoop solver e l).2.2.threshold = e.threshold ∧
      (allocLoop solver e l).2.2.predictor = e.predictor ∧
      (allocLoop solver e l).2.2.seenInstances = e.seenInstances := by
  induction l with
  | nil => intro e; exact ⟨rfl, rfl, rfl⟩
  | cons p ps ih =>
    intro e
    simp only [allocLoop]
    split
    · exact ⟨rfl, rfl, rfl⟩
    · exact ih (stepUpdate solver e p).2

theorem allocLoop_sum (solver : Solver) (l : List ℚ) :
    ∀ e : Engine, (allocLoop solver e l).1.sum = (allocLoop solver e l).2.2.w - e.w := by
  induction l with
  | nil => intro e; simp [allocLoop]
  | cons p ps ih =>
    intro e
    simp only [allocLoop]
    split
    · simp only [List.sum_cons, sum_map_zero, stepUpdate]
      ring
    · have h := ih (stepUpdate solver e p).2
      simp only [stepUpdate] at h
      simp only [List.sum_cons, stepUpdate, h]
      ring

theorem allocLoop_w_le (solver : Solver) (l : List ℚ) :
    ∀ e : Engine, e.w ≤ 1 → (allocLoop solver e l).2.2.w ≤ 1 := by
  induction l with
  | nil => intro e hw; exact hw
  | cons p ps ih =>
    intro e hw
    simp only [allocLoop]
    split
    · exact stepAlloc_add_le solver hw p
    · exact ih (stepUpdate solver e p).2 (stepAlloc_add_le solver hw p)

theorem allocLoop_nonneg (solver : Solver) (l : List ℚ) :
    ∀ e : Engine, e.w ≤ 1 → ∀ a ∈ (allocLoop solver e l).1, 0 ≤ a := by
  induction l with
  | nil => intro e _ a ha; exact absurd ha (List.not_mem_nil a)
  | cons p ps ih =>
    intro e hw a ha
    simp only [allocLoop] at ha
    split at ha
    · rcases List.mem_cons.mp ha with h | h
      · rw [h]; exact stepAlloc_nonneg solver hw p
      · rcases List.mem_map.mp h with ⟨_, _, hz⟩
        rw [← hz]
    · rcases List.mem_cons.mp ha with h | h
      · rw [h]; exact stepAlloc_nonneg solver hw p
      · exact ih (stepUpdate solver e p).2 (stepAlloc_add_le solver hw p) a h

theorem allocLoop_preds (solver : Solver) (l : List ℚ) :
    ∀ e : Engine, ∀ q ∈ (allocLoop solver e l).2.1, q = stepPrediction e := by
  induction l with
  | nil => intro e q hq; exact absurd hq (List.not_mem_nil q)
  | cons p ps ih =>
    intro e q hq
    simp only [allocLoop] at hq
    split at hq
    · rcases List.mem_cons.mp hq with h | h
      · exact h
      · exact absurd h (List.not_mem_nil q)
    · rcases List.mem_cons.mp hq with h | h
      · exact h
      · rw [ih (stepUpdate solver e p).2 q h, stepPrediction_update]

end OneWayTrading

namespace OneWayTrading

/-! Lemmas about the episode-close update of the last entry. -/

theorem addLast_length (v : ℚ) (l : List ℚ) : (addLast l v).length = l.length := by
  induction l with
  | nil => rfl
  | cons a t ih =>
    cases t with
    | nil => rfl
    | cons b t2 => simp only [addLast, List.length_cons, ih]

theorem addLast_sum (v : ℚ) (l : List ℚ) (hne : l ≠ []) :
    (addLast l v).sum = l.sum + v := by
  induction l with
  | nil => exact absurd rfl hne
  | cons a t ih =>
    cases t with
    | nil => simp only [addLast, List.sum_cons, List.sum_nil]; ring
    | cons b t2 =>
      simp only [addLast, List.sum_cons]
      rw [ih (by simp)]
      simp only [List.sum_cons]
      ring

theorem addLast_zero (l : List ℚ) : addLast l 0 = l := by
  induction l with
  | nil => rfl
  | cons a t ih =>
    cases t with
    | nil => simp [addLast]
    | cons b t2 => simp only [addLast, ih]

theorem addLast_nonneg (v : ℚ) (hv : 0 ≤ v) (l : List ℚ)
    (hl : ∀ a ∈ l, 0 ≤ a) : ∀ a ∈ addLast l v, 0 ≤ a := by
  induction l with
  | nil => intro a ha; exact absurd ha (List.not_mem_nil a)
  | cons a t ih =>
    cases t with
    | nil =>
      intro x hx
      rcases List.mem_cons.mp hx with h | h
      · rw [h]
        have := hl a (by simp)
        linarith
      · exact absurd h (List.not_mem_nil x)
    | cons b t2 =>
      intro x hx
      rcases List.mem_cons.mp hx with h | h
      · rw [h]; exact hl a (by simp)
      · exact ih (fun y hy => hl y (List.mem_cons_of_mem a hy)) x h

/-! Lemmas characterising `allocate`. -/

theorem allocate_ok (solver : Solver) (e : Engine) (inst : List ℚ)
    (hw : e.w ≤ 1) (hne : inst ≠ []) :
    OneWayTradingAlgorithm.allocate solver e inst =
      Except.ok
        ({ allocation := addLast (allocLoop solver e inst).1
              (1 - (allocLoop solver e inst).2.2.w),
           profit := dotSum inst (addLast (allocLoop solver e inst).1
              (1 - (allocLoop solver e inst).2.2.w)) },
         (allocLoop solver e inst).2.2) := by
  have h1 := allocLoop_w_le solver inst e hw
  have h2 : (allocLoop solver e inst).1 ≠ [] := by
    intro hnil
    have hlen := allocLoop_length solver inst e
    rw [hnil] at hlen
    exact hne (List.eq_nil_of_length_eq_zero hlen.symm)
  simp only [OneWayTradingAlgorithm.allocate]
  rw [if_pos h1]
  split
  · rename_i heq
    exact absurd heq h2
  · rename_i a t heq
    rfl

theorem allocate_error_msg (solver : Solver) (e : Engine) (inst : List ℚ)
    (msg : String)
    (h : OneWayTradingAlgorithm.allocate solver e inst = Except.error msg) :
    msg = "IndexError: index -1 is out of bounds for axis 0 with size 0" := by
  simp only [OneWayTradingAlgorithm.allocate] at h
  split at h
  · split at h
    · injection h with h2
      exact h2.symm
    · exact absurd h (by simp)
  · exact absurd h (by simp)

theorem allocate_engine_eq (solver : Solver) (e : Engine) (inst : List ℚ)
    (res : AllocResult) (e₂ : Engine)
    (hok : OneWayTradingAlgorithm.allocate solver e inst = Except.ok (res, e₂)) :
    e₂ = (allocLoop solver e inst).2.2 := by
  simp only [OneWayTradingAlgorithm.allocate] at hok
  split at hok
  · split at hok
    · exact absurd hok (by simp)
    · simp only [Except.ok.injEq, Prod.mk.injEq] at hok
      exact hok.2.symm
  · simp only [Except.ok.injEq, Prod.mk.injEq] at hok
    exact hok.2.symm

theorem allocate_nonempty (solver : Solver) (e : Engine) (inst : List ℚ)
    (res : AllocResult) (e₂ : Engine) (hw : e.w ≤ 1)
    (hok : OneWayTradingAlgorithm.allocate solver e inst = Except.ok (res, e₂)) :
    inst ≠ [] := by
  intro hnil
  rw [hnil] at hok
  simp only [OneWayTradingAlgorithm.allocate, allocLoop] at hok
  rw [if_pos hw] at hok
  exact absurd hok (by simp)

theorem allocate_res_eq (solver : Solver) (e : Engine) (inst : List ℚ)
    (res : AllocResult) (e₂ : Engine) (hw : e.w ≤ 1)
    (hok : OneWayTradingAlgorithm.allocate solver e inst = Except.ok (res, e₂)) :
    res.allocation = addLast (allocLoop solver e inst).1
      (1 - (allocLoop solver e inst).2.2.w) ∧
    res.profit = dotSum inst res.allocation := by
  rw [allocate_ok solver e inst hw
    (allocate_nonempty solver e inst res e₂ hw hok)] at hok
  simp only [Except.ok.injEq, Prod.mk.injEq] at hok
  rw [← hok.1]
  exact ⟨rfl, rfl⟩

theorem allocate_sum_aux (solver : Solver) (e : Engine) (inst : List ℚ)
    (res : AllocResult) (e₂ : Engine) (hw : e.w ≤ 1)
    (hok : OneWayTradingAlgorithm.allocate solver e inst = Except.ok (res, e₂)) :
    res.allocation.sum = 1 - e.w := by
  have hne := allocate_nonempty solver e inst res e₂ hw hok
  have h2 : (allocLoop solver e inst).1 ≠ [] := by
    intro hnil
    have hlen := allocLoop_length solver inst e
    rw [hnil] at hlen
    exact hne (List.eq_nil_of_length_eq_zero hlen.symm)
  rw [(allocate_res_eq solver e inst res e₂ hw hok).1,
    addLast_sum _ _ h2, allocLoop_sum solver inst e]
  ring

theorem allocate_nonneg_aux (solver : Solver) (e : Engine) (inst : List ℚ)
    (res : AllocResult) (e₂ : Engine) (hw : e.w ≤ 1)
    (hok : OneWayTradingAlgorithm.allocate solver e inst = Except.ok (res, e₂)) :
    ∀ a ∈ res.allocation, 0 ≤ a := by
  rw [(allocate_res_eq solver e inst res e₂ hw hok).1]
  exact addLast_nonneg _ (by have := allocLoop_w_le solver inst e hw; linarith)
    _ (allocLoop_nonneg solver inst e hw)

end OneWayTrading

namespace OneWayTrading

theorem allocate_length (solver : Solver) (e : Engine) (inst : List ℚ)
    (res : AllocResult) (e₂ : Engine)
    (hok : OneWayTradingAlgorithm.allocate solver e inst = Except.ok (res, e₂)) :
    res.allocation.length = inst.length := by
  simp only [OneWayTradingAlgorithm.allocate] at hok
  split at hok
  · split at hok
    · exact absurd hok (by simp)
    · simp only [Except.ok.injEq, Prod.mk.injEq] at hok
      rw [← hok.1]
      simp only [addLast_length, allocLoop_length]
  · simp only [Except.ok.injEq, Prod.mk.injEq] at hok
    rw [← hok.1]
    simp only [allocLoop_length]

theorem dotSum_eq_sum_range (ps : List ℚ) :
    ∀ qs : List ℚ, qs.length = ps.length →
      dotSum ps qs = ∑ i ∈ Finset.range ps.length, ps.getD i 0 * qs.getD i 0 := by
  induction ps with
  | nil => intro qs _; simp [dotSum]
  | cons p pt ih =>
    intro qs h
    cases qs with
    | nil => simp at h
    | cons q qt =>
      simp only [List.length_cons] at h
      have h2 := ih qt (by omega)
      simp only [dotSum, List.length_cons, Finset.sum_range_succ',
        List.getD_cons_succ, List.getD_cons_zero]
      rw [← h2]
      ring

theorem tail_eq_zero_of_prefix_sum (l : List ℚ) (hnn : ∀ a ∈ l, 0 ≤ a)
    (hsum : l.sum ≤ 1) (i j : ℕ) (hij : i < j)
    (hpre : 1 ≤ (l.take (i + 1)).sum) : l.getD j 0 = 0 := by
  rcases lt_or_le j l.length with hj | hj
  · obtain ⟨k, rfl⟩ : ∃ k, j = (i + 1) + k := ⟨j - (i + 1), by omega⟩
    rw [List.getD_eq_getElem l 0 hj]
    have hsplit : (l.take (i + 1)).sum + (l.drop (i + 1)).sum = l.sum := by
      rw [← List.sum_append, List.take_append_drop]
    have hdropnn : ∀ a ∈ l.drop (i + 1), 0 ≤ a := fun a ha =>
      hnn a (List.drop_subset _ l ha)
    have hk : k < (l.drop (i + 1)).length := by
      simp only [List.length_drop]; omega
    have hdg : (l.drop (i + 1))[k] = l[(i + 1) + k] := List.getElem_drop ..
    have hle := List.single_le_sum hdropnn _ (List.getElem_mem hk)
    have hge := hdropnn _ (List.getElem_mem hk)
    rw [← hdg]
    linarith
  · exact List.getD_eq_default l 0 hj

/-- C1: for every valid episode — a non-empty sequence of positive prices,
run from a fresh engine (`w = 0`) — the allocation sequence returned by
`allocate` sums to exactly `1` in exact arithmetic, whatever the threshold
function, the solver and the branches taken, because the episode close adds
the residual `1 - w` to the last index; in particular a single-element
instance `[p]` with `p` strictly between `reservation_price(0, prediction)`
and `reservation_price(1, prediction)` receives allocation exactly `1` at
its only index. -/
theorem allocate_sum_eq_one (solver : Solver) (e : Engine) (inst : List ℚ)
    (res : AllocResult) (e₂ : Engine) (hw : e.w = 0) (hne : inst ≠ [])
    (hpos : ∀ p ∈ inst, 0 < p)
    (hok : OneWayTradingAlgorithm.allocate solver e inst = Except.ok (res, e₂)) :
    res.allocation.sum = 1 ∧
    (∀ p : ℚ, inst = [p] → e.threshold 0 (stepPrediction e) < p →
      p < e.threshold 1 (stepPrediction e) → res.allocation = [1]) := by
  have hw1 : e.w ≤ 1 := by rw [hw]; norm_num
  have hsum := allocate_sum_aux solver e inst res e₂ hw1 hok
  rw [hw] at hsum
  norm_num at hsum
  refine ⟨hsum, ?_⟩
  intro p hinst _ _
  have hlen := allocate_length solver e inst res e₂ hok
  rw [hinst] at hlen
  obtain ⟨a, ha⟩ := List.length_eq_one.mp hlen
  rw [ha] at hsum ⊢
  simp only [List.sum_cons, List.sum_nil, add_zero] at hsum
  rw [hsum]

/-- Witness for C1: the scenario-C input `[2]` on a fresh engine over
`thrStep` (so `2` lies strictly between the reservation prices at `w = 0`
and `w = 1`) yields an allocation summing to `1`. -/
theorem allocate_sum_eq_one_witness :
    (AllocResult.mk [1] 2).allocation.sum = 1 :=
  (allocate_sum_eq_one solv0 eng0 [2] (AllocResult.mk [1] 2)
    { threshold := thrStep, predictor := none, seenInstances := [], w := 0 }
    rfl (by norm_num) (by norm_num)
    (by norm_num [OneWayTradingAlgorithm.allocate, allocLoop, stepUpdate,
      stepAlloc, clampStep, stepPrediction, eng0, thrStep, solv0, addLast,
      dotSum])).1

end OneWayTrading

namespace OneWayTrading

/-- C2: at every step taken with cumulative allocation `w < 1`, the step
allocation is decided by exactly the three-way rule of the source: a price
below `reservation_price(w, prediction)` gives `0`; a price in
`[reservation_price(w, prediction), reservation_price(1, prediction))`
gives the solver's root of `reservation_price(w + x, prediction) = price`
clamped into `[0, 1 - w]`; a price at or above
`reservation_price(1, prediction)` gives `1 - w`.  Afterwards the step's
allocation entry is that value and `w` is increased by it. -/
theorem allocate_step_three_way (solver : Solver) (e : Engine) (p : ℚ)
    (ps : List ℚ) (hw : e.w < 1)
    (hroot : e.threshold e.w (stepPrediction e) ≤ p →
      p < e.threshold 1 (stepPrediction e) →
      e.threshold
        (e.w + solver (fun x => e.threshold (e.w + x) (stepPrediction e) - p))
        (stepPrediction e) = p) :
    stepAlloc solver e p =
      (if p < e.threshold e.w (stepPrediction e) then 0
       else if p < e.threshold 1 (stepPrediction e) then
         min (max (solver (fun x =>
           e.threshold (e.w + x) (stepPrediction e) - p)) 0) (1 - e.w)
       else 1 - e.w) ∧
    (e.threshold e.w (stepPrediction e) ≤ p →
      p < e.threshold 1 (stepPrediction e) →
      ∃ r, e.threshold (e.w + r) (stepPrediction e) = p ∧
        stepAlloc solver e p = min (max r 0) (1 - e.w)) ∧
    (allocLoop solver e (p :: ps)).1.headI = stepAlloc solver e p ∧
    (stepUpdate solver e p).2.w = e.w + stepAlloc solver e p := by
  have hchain : stepAlloc solver e p =
      (if p < e.threshold e.w (stepPrediction e) then 0
       else if p < e.threshold 1 (stepPrediction e) then
         min (max (solver (fun x =>
           e.threshold (e.w + x) (stepPrediction e) - p)) 0) (1 - e.w)
       else 1 - e.w) := by
    simp only [stepAlloc, clampStep_eq]
    rcases lt_or_le p (e.threshold e.w (stepPrediction e)) with h1 | h1
    · rw [if_pos h1, if_pos h1]
    · rw [if_neg (not_lt.mpr h1), if_neg (not_lt.mpr h1)]
      rcases lt_or_le p (e.threshold 1 (stepPrediction e)) with h2 | h2
      · rw [if_pos ⟨h1, h2⟩, if_pos h2]
      · rw [if_neg (fun h => absurd h.2 (not_lt.mpr h2)),
          if_neg (not_lt.mpr h2)]
  refine ⟨hchain, ?_, ?_, rfl⟩
  · intro h1 h2
    exact ⟨_, hroot h1 h2, by
      rw [hchain, if_neg (not_lt.mpr h1), if_pos h2]⟩
  · simp only [allocLoop]
    split
    · rfl
    · rfl

/-- Witness for C2: on a fresh engine over `thrStep` with price `1` (which
sits in the middle branch, the constant-zero solver returning an exact
root), the three-way equation holds. -/
theorem allocate_step_three_way_witness :
    stepAlloc solv0 eng0 1 =
      (if (1 : ℚ) < eng0.threshold eng0.w (stepPrediction eng0) then 0
       else if (1 : ℚ) < eng0.threshold 1 (stepPrediction eng0) then
         min (max (solv0 (fun x =>
           eng0.threshold (eng0.w + x) (stepPrediction eng0) - 1)) 0)
           (1 - eng0.w)
       else 1 - eng0.w) :=
  (allocate_step_three_way solv0 eng0 1 [] (by norm_num [eng0])
    (by norm_num [eng0, thrStep, solv0, stepPrediction])).1

/-- C3: the profit returned by `allocate` equals the inner product of the
price sequence with the returned allocation sequence (residual included),
both as the source's elementwise `np.sum(instance * allocation)` and as an
indexed sum over all positions. -/
theorem allocate_profit_inner_product (solver : Solver) (e : Engine)
    (inst : List ℚ) (res : AllocResult) (e₂ : Engine)
    (hok : OneWayTradingAlgorithm.allocate solver e inst = Except.ok (res, e₂)) :
    res.profit = dotSum inst res.allocation ∧
    res.profit = ∑ i ∈ Finset.range inst.length,
      inst.getD i 0 * res.allocation.getD i 0 := by
  have hlen := allocate_length solver e inst res e₂ hok
  have hp : res.profit = dotSum inst res.allocation := by
    simp only [OneWayTradingAlgorithm.allocate] at hok
    split at hok
    · split at hok
      · exact absurd hok (by simp)
      · simp only [Except.ok.injEq, Prod.mk.injEq] at hok
        rw [← hok.1]
    · simp only [Except.ok.injEq, Prod.mk.injEq] at hok
      rw [← hok.1]
  exact ⟨hp, by rw [hp, dotSum_eq_sum_range inst res.allocation hlen]⟩

/-- Witness for C3: on the concrete episode `[2]` the returned profit `2`
equals the inner product of prices and allocation. -/
theorem allocate_profit_inner_product_witness :
    (AllocResult.mk [1] 2).profit = dotSum [2] (AllocResult.mk [1] 2).allocation :=
  (allocate_profit_inner_product solv0 eng0 [2] (AllocResult.mk [1] 2)
    { threshold := thrStep, predictor := none, seenInstances := [], w := 0 }
    (by norm_num [OneWayTradingAlgorithm.allocate, allocLoop, stepUpdate,
      stepAlloc, clampStep, stepPrediction, eng0, thrStep, solv0, addLast,
      dotSum])).1

/-- C4: every returned schedule is pointwise non-negative; once the
cumulative allocation reaches `1` within the first `i + 1` steps every later
index holds `0`; and when the loop ends with `w` already exactly `1` the
episode close adds nothing — the returned allocation is the loop's array
unchanged. -/
theorem allocate_nonneg_zero_after_exhaustion (solver : Solver) (e : Engine)
    (inst : List ℚ) (res : AllocResult) (e₂ : Engine) (hw : e.w = 0)
    (hok : OneWayTradingAlgorithm.allocate solver e inst = Except.ok (res, e₂)) :
    (∀ a ∈ res.allocation, 0 ≤ a) ∧
    (∀ i j : ℕ, i < j → 1 ≤ (res.allocation.take (i + 1)).sum →
      res.allocation.getD j 0 = 0) ∧
    ((allocLoop solver e inst).2.2.w = 1 →
      res.allocation = (allocLoop solver e inst).1) := by
  have hw1 : e.w ≤ 1 := by rw [hw]; norm_num
  have hnn := allocate_nonneg_aux solver e inst res e₂ hw1 hok
  have hsum := allocate_sum_aux solver e inst res e₂ hw1 hok
  rw [hw] at hsum
  norm_num at hsum
  refine ⟨hnn, ?_, ?_⟩
  · intro i j hij hpre
    exact tail_eq_zero_of_prefix_sum res.allocation hnn (le_of_eq hsum) i j hij hpre
  · intro hw2
    rw [(allocate_res_eq solver e inst res e₂ hw1 hok).1, hw2]
    norm_num [addLast_zero]

/-- Witness for C4: the episode `[3, 2]` exhausts the resource at the first
step (price `3` is at the full-allocation bar of `thrStep`), and the entry
after the exhaustion step is `0`. -/
theorem allocate_nonneg_zero_after_exhaustion_witness :
    ([1, 0] : List ℚ).getD 1 0 = 0 :=
  have h := allocate_nonneg_zero_after_exhaustion solv0 eng0 [3, 2]
    (AllocResult.mk [1, 0] 3)
    { threshold := thrStep, predictor := none, seenInstances := [], w := 1 }
    rfl
    (by norm_num [OneWayTradingAlgorithm.allocate, allocLoop, stepUpdate,
      stepAlloc, clampStep, stepPrediction, eng0, thrStep, solv0, addLast,
      dotSum])
  h.2.1 0 1 (by norm_num) (by norm_num)

end OneWayTrading

namespace OneWayTrading

/-- C5 counterexample: `allocate` does not reject non-positive prices — the
stream `[-5]` (a single strictly negative price) is processed without any
error. -/
theorem allocate_accepts_nonpositive_price :
    (OneWayTradingAlgorithm.allocate solv0 eng0 [-5]).isOk = true ∧
    ¬ (0 : ℚ) < -5 := by
  constructor
  · norm_num [OneWayTradingAlgorithm.allocate, allocLoop, stepUpdate, stepAlloc,
      clampStep, stepPrediction, eng0, thrStep, solv0, addLast, dotSum,
      Except.isOk, Except.toBool]
  · norm_num

/-- C5 amended: `allocate` performs no validation of the price stream:
any non-empty stream — non-positive prices included — is processed and
succeeds, while an empty stream fails with the `IndexError` raised by the
episode-close indexing `allocation[-1]` after the loop (not a domain error
before it), the engine's `w` being left unchanged since the loop ran no
step. -/
theorem allocate_no_input_validation (solver : Solver) (e : Engine)
    (hw : e.w ≤ 1) :
    OneWayTradingAlgorithm.allocate solver e [] =
      Except.error "IndexError: index -1 is out of bounds for axis 0 with size 0" ∧
    (allocLoop solver e []).2.2.w = e.w ∧
    ∀ inst : List ℚ, inst ≠ [] →
      (OneWayTradingAlgorithm.allocate solver e inst).isOk = true := by
  refine ⟨?_, rfl, ?_⟩
  · simp only [OneWayTradingAlgorithm.allocate, allocLoop]
    rw [if_pos hw]
  · intro inst hne
    rw [allocate_ok solver e inst hw hne]
    rfl

/-- Witness for the amended C5 at the fresh concrete engine. -/
theorem allocate_no_input_validation_witness :
    OneWayTradingAlgorithm.allocate solv0 eng0 [] =
      Except.error "IndexError: index -1 is out of bounds for axis 0 with size 0" :=
  (allocate_no_input_validation solv0 eng0 (by norm_num [eng0])).1

/-- C6: constructing the engine with `lmbda < 1` and no predictor fails with
the `ValueError`, and this is the only configuration failure: with
`lmbda ≥ 1` or a predictor supplied, construction succeeds (with `w = 0`),
and `allocate` can only fail with the episode-close `IndexError`, never with
the configuration error. -/
theorem init_lambda_check_only_config_failure
    (thrFam : ℚ → ℚ → ℚ → Threshold) (L U lmbda : ℚ)
    (seen : List (List ℚ)) (pred : Option Predictor) :
    (pred = none → lmbda < 1 →
      OneWayTradingAlgorithm.init thrFam L U lmbda seen pred =
        Except.error "if no predictor, can only use lmbda == 1.0") ∧
    (1 ≤ lmbda ∨ pred.isSome →
      OneWayTradingAlgorithm.init thrFam L U lmbda seen pred =
        Except.ok { threshold := thrFam L U lmbda, predictor := pred,
                    seenInstances := seen, w := 0 }) ∧
    (∀ (solver : Solver) (e : Engine) (inst : List ℚ) (msg : String),
      OneWayTradingAlgorithm.allocate solver e inst = Except.error msg →
      msg = "IndexError: index -1 is out of bounds for axis 0 with size 0") := by
  refine ⟨?_, ?_, fun solver e inst msg h =>
    allocate_error_msg solver e inst msg h⟩
  · intro h1 h2
    simp only [OneWayTradingAlgorithm.init]
    rw [if_pos ⟨by rw [h1]; rfl, h2⟩]
  · intro h
    simp only [OneWayTradingAlgorithm.init]
    rw [if_neg]
    rcases h with h | h
    · exact fun hcon => absurd hcon.2 (not_lt.mpr h)
    · exact fun hcon => by
        rw [Option.isNone_iff_eq_none.mp hcon.1] at h
        simp at h

/-- Witness for C6: `lmbda = 1/2` with no predictor is rejected at
construction. -/
theorem init_lambda_check_only_config_failure_witness :
    OneWayTradingAlgorithm.init (fun _ _ _ => thrStep) 1 3 (1 / 2) [] none =
      Except.error "if no predictor, can only use lmbda == 1.0" :=
  (init_lambda_check_only_config_failure (fun _ _ _ => thrStep) 1 3 (1 / 2)
    [] none).1 rfl (by norm_num)

/-- C7: within one call to `allocate` every executed step queries the
predictor on the same history — the one accumulated before the episode,
which does not grow during the call — so the prediction obtained at each
step equals the prediction obtained at the first step
(`stepPrediction e`, the predictor applied to the pre-episode history). -/
theorem prediction_constant_within_episode (solver : Solver) (e : Engine)
    (inst : List ℚ) :
    (∀ q ∈ (allocLoop solver e inst).2.1, q = stepPrediction e) ∧
    (allocLoop solver e inst).2.2.seenInstances = e.seenInstances :=
  ⟨allocLoop_preds solver inst e, (allocLoop_frame solver inst e).2.2⟩

/-- Witness for C7: on the two-step episode `[1, 2]` with a configured
constant predictor, the prediction queried at an executed step is the
pre-episode prediction. -/
theorem prediction_constant_within_episode_witness :
    some (7 : ℚ) = stepPrediction engP :=
  (prediction_constant_within_episode solv0 engP [1, 2]).1 (some 7)
    (by norm_num [allocLoop, stepUpdate, stepAlloc, clampStep, stepPrediction,
      engP, thrStep, solv0])

/-- C8 counterexample: the engine neither rejects a second episode nor
resets `w`: the first episode `[3]` on a fresh engine leaves the terminal
value `w = 1`, and a second `allocate` call on an engine whose `w` holds
that terminal value is accepted, not rejected (the class also defines no
reset operation — its only operations are construction and `allocate`). -/
theorem second_episode_not_rejected :
    (OneWayTradingAlgorithm.allocate solv0 eng0 [3]).toOption.map
      (fun r => r.2.w) = some 1 ∧
    (OneWayTradingAlgorithm.allocate solv0 engT [3]).isOk = true := by
  constructor
  · norm_num [OneWayTradingAlgorithm.allocate, allocLoop, stepUpdate, stepAlloc,
      clampStep, stepPrediction, eng0, thrStep, solv0, addLast, dotSum,
      Except.toOption]
  · norm_num [OneWayTradingAlgorithm.allocate, allocLoop, stepUpdate, stepAlloc,
      clampStep, stepPrediction, engT, thrStep, solv0, addLast, dotSum,
      Except.isOk, Except.toBool]

/-- C8 amended: a second episode on the same engine is not rejected: after
any successful `allocate` call, a further call on the engine it returns
(whose `w` retains the first episode's terminal value) succeeds for every
non-empty stream; no rejection and no reset happens. -/
theorem allocate_second_episode_accepted (solver : Solver) (e : Engine)
    (inst : List ℚ) (res : AllocResult) (e₂ : Engine) (hw : e.w ≤ 1)
    (hok : OneWayTradingAlgorithm.allocate solver e inst = Except.ok (res, e₂))
    (inst2 : List ℚ) (hne : inst2 ≠ []) :
    (OneWayTradingAlgorithm.allocate solver e₂ inst2).isOk = true := by
  have he : e₂ = (allocLoop solver e inst).2.2 :=
    allocate_engine_eq solver e inst res e₂ hok
  have hw2 : e₂.w ≤ 1 := by
    rw [he]
    exact allocLoop_w_le solver inst e hw
  rw [allocate_ok solver e₂ inst2 hw2 hne]
  rfl

/-- Witness for the amended C8: the engine left by the first episode `[3]`
(terminal `w = 1`) accepts the second episode `[2]`. -/
theorem allocate_second_episode_accepted_witness :
    (OneWayTradingAlgorithm.allocate solv0 engT [2]).isOk = true :=
  allocate_second_episode_accepted solv0 eng0 [3] (AllocResult.mk [1] 3) engT
    (by norm_num [eng0])
    (by norm_num [OneWayTradingAlgorithm.allocate, allocLoop, stepUpdate,
      stepAlloc, clampStep, stepPrediction, eng0, engT, thrStep, solv0,
      addLast, dotSum])
    [2] (by norm_num)

/-- C10: the episode close mutates only the returned allocation array, not
the engine: the engine returned by `allocate` is exactly the one left by the
decision loop — threshold, predictor and seen-instances configuration
unchanged — and when the stream ends before exhaustion (`w` still below
`1`), `w` keeps that loop value even though the returned schedule already
sums to `1`. -/
theorem episode_close_frame (solver : Solver) (e : Engine) (inst : List ℚ)
    (res : AllocResult) (e₂ : Engine)
    (hok : OneWayTradingAlgorithm.allocate solver e inst = Except.ok (res, e₂)) :
    e₂ = (allocLoop solver e inst).2.2 ∧
    e₂.threshold = e.threshold ∧
    e₂.predictor = e.predictor ∧
    e₂.seenInstances = e.seenInstances ∧
    (e.w = 0 → e₂.w < 1 → res.allocation.sum = 1) := by
  have he := allocate_engine_eq solver e inst res e₂ hok
  have hf := allocLoop_frame solver inst e
  refine ⟨he, by rw [he]; exact hf.1, by rw [he]; exact hf.2.1,
    by rw [he]; exact hf.2.2, ?_⟩
  intro hw _
  have hsum := allocate_sum_aux solver e inst res e₂ (by rw [hw]; norm_num) hok
  rw [hw] at hsum
  norm_num at hsum
  exact hsum

/-- Witness for C10: the episode `[2]` on a fresh engine ends with the
engine's `w` still `0` (strictly below `1`), yet the returned schedule sums
to `1`. -/
theorem episode_close_frame_witness :
    (AllocResult.mk [1] 2).allocation.sum = 1 ∧
    ({ threshold := thrStep, predictor := none, seenInstances := [],
       w := 0 } : Engine).w < 1 :=
  ⟨(episode_close_frame solv0 eng0 [2] (AllocResult.mk [1] 2)
      { threshold := thrStep, predictor := none, seenInstances := [], w := 0 }
      (by norm_num [OneWayTradingAlgorithm.allocate, allocLoop, stepUpdate,
        stepAlloc, clampStep, stepPrediction, eng0, thrStep, solv0, addLast,
        dotSum])).2.2.2.2 rfl (by norm_num),
   by norm_num⟩

end OneWayTrading
